import Mathlib

/- Verification of the oscar-io document reader and parquet writer modules
   (src/oscar_doc/reader.rs and src/oscar_doc/write/writer_parquet.rs) as a
   shallow embedding in Lean.  External collaborators (the filesystem,
   serde_json parsing, flate2 gzip decoding) are modelled as explicit
   function parameters; byte streams are modelled as lists of characters. -/

/-- Kinds of std::io::Error distinguished by the reader code
(std::io::ErrorKind: NotFound versus anything else). -/
inductive IoKind where
  | notFound
  | permissionDenied
  | otherKind
deriving DecidableEq

/-- The crate error enum (crate::error::Error) restricted to the variants the
reader and writer code paths construct or inspect: Io, SerdeJson, Custom. -/
inductive Error where
  | io (kind : IoKind)
  | serdeJson
  | custom (msg : String)
deriving DecidableEq

/-- Modelled from the spec: a language identification, a "language label
(code) plus probability" (crate::common::Identification, whose definition is
not under src/; the Lang enum is modelled by its string label and the 32-bit
float probability by a Float that is only carried around, never computed
with). -/
structure Identification where
  label : String
  prob : Float

/-- Modelled from the spec: document metadata (crate::oscar_doc::Metadata,
whose definition is not under src/): a document-level identification, an
optional ordered list of annotation tags (field renamed to annotations here)
and one optional identification per line of content. -/
structure Metadata where
  identification : Identification
  annotations : Option (List String)
  sentence_identifications : List (Option Identification)

/-- Modelled from the spec: a corpus document (crate::v3::Document, whose
definition is not under src/): content text, warc header map (modelled as an
association list) and metadata. -/
structure Document where
  content : String
  warc_headers : List (String × String)
  metadata : Metadata

/-- One BufRead::read_line step: split off the first line of the stream, line
terminator included; the second component is the rest of the stream. -/
def splitLine : List Char → List Char × List Char
  | [] => ([], [])
  | c :: rest =>
    if c = '\n' then ([c], rest)
    else
      let p := splitLine rest
      (c :: p.1, p.2)

/-- One pull of DocReader::next (reader.rs:48-61): a zero-byte read is clean
end of stream; otherwise the next line is read and handed to the JSON parser
(serde_json::from_str, modelled as the explicit parameter parse), the parse
result - ok or error - is yielded and the stream position advances past the
line either way. -/
def docNext (parse : String → Except Error Document) (r : List Char) :
    Option (Except Error Document × List Char) :=
  match r with
  | [] => none
  | _ :: _ => some (parse (String.mk (splitLine r).1), (splitLine r).2)

/-- Fuelled iteration of docNext, collecting every yielded item. -/
def readAllFuel (parse : String → Except Error Document) :
    Nat → List Char → List (Except Error Document)
  | 0, _ => []
  | fuel + 1, r =>
    match docNext parse r with
    | none => []
    | some (res, rest) => res :: readAllFuel parse fuel rest

/-- Every item DocReader yields over a stream, in order.  Each pull consumes
at least one character, so the stream length bounds the number of pulls. -/
def readAll (parse : String → Except Error Document) (r : List Char) :
    List (Except Error Document) :=
  readAllFuel parse r.length r

theorem splitLine_rest_lt (r : List Char) (h : r ≠ []) :
    (splitLine r).2.length < r.length := by
  induction r with
  | nil => exact absurd rfl h
  | cons c rest ih =>
    simp only [splitLine]
    split
    · simp
    · cases hr : rest with
      | nil => subst hr; simp [splitLine]
      | cons d tl =>
        subst hr
        exact Nat.lt_succ_of_lt (ih (by simp))

theorem readAllFuel_congr_aux (parse : String → Except Error Document) :
    ∀ (len : Nat) (r : List Char), r.length = len → ∀ (n m : Nat),
      r.length ≤ n → r.length ≤ m →
      readAllFuel parse n r = readAllFuel parse m r := by
  intro len
  induction len using Nat.strong_induction_on with
  | _ len ih =>
    intro r hr n m hn hm
    cases r with
    | nil =>
      cases n <;> cases m <;> simp [readAllFuel, docNext]
    | cons c rest =>
      cases n with
      | zero => simp at hn
      | succ n' =>
        cases m with
        | zero => simp at hm
        | succ m' =>
          simp only [readAllFuel, docNext]
          have hlt := splitLine_rest_lt (c :: rest) (by simp)
          rw [ih (splitLine (c :: rest)).2.length (hr ▸ hlt)
            (splitLine (c :: rest)).2 rfl n' m'
            (Nat.le_of_lt_succ (Nat.lt_of_lt_of_le hlt hn))
            (Nat.le_of_lt_succ (Nat.lt_of_lt_of_le hlt hm))]

theorem readAllFuel_congr (parse : String → Except Error Document)
    (r : List Char) (n m : Nat) (hn : r.length ≤ n) (hm : r.length ≤ m) :
    readAllFuel parse n r = readAllFuel parse m r :=
  readAllFuel_congr_aux parse r.length r rfl n m hn hm

theorem readAll_cons (parse : String → Except Error Document)
    (r : List Char) (h : r ≠ []) :
    readAll parse r =
      parse (String.mk (splitLine r).1) :: readAll parse (splitLine r).2 := by
  cases r with
  | nil => exact absurd rfl h
  | cons c rest =>
    simp only [readAll, List.length_cons, readAllFuel, docNext]
    have hlt := splitLine_rest_lt (c :: rest) (by simp)
    rw [readAllFuel_congr parse (splitLine (c :: rest)).2 rest.length
      (splitLine (c :: rest)).2.length (by simpa using Nat.le_of_lt_succ hlt) le_rfl]

theorem readAll_nil (parse : String → Except Error Document) :
    readAll parse [] = [] := rfl

/-- The per-leaf output assembled by the auto_ser encoder of
writer_parquet.rs (test_id_auto, lines 486-537): flat value arrays for the
label and probability leaves plus parallel definition-level and
repetition-level arrays.  Levels are u16 in the source; they are modelled as
Nat (the encoder only ever adds 1 to the base level). -/
structure AutoSerOut where
  ids : List (Option String)
  probs : List (Option Float)
  def_levels : List Nat
  rep_levels : List Nat
deriving Repr

/-- The loop over the remaining (non-first) entries of auto_ser
(writer_parquet.rs lines 514-530): an absent entry pushes a null value with
definition default_level + 1 and repetition default_level; a present entry
pushes its label and probability with definition default_level + 1 and
repetition default_level + 1. -/
def autoSerRest (default_level : Nat) :
    List (Option Identification) → AutoSerOut
  | [] => ⟨[], [], [], []⟩
  | none :: rest =>
    let o := autoSerRest default_level rest
    ⟨none :: o.ids, none :: o.probs,
      (default_level + 1) :: o.def_levels, default_level :: o.rep_levels⟩
  | some sid :: rest =>
    let o := autoSerRest default_level rest
    ⟨some sid.label :: o.ids, some sid.prob :: o.probs,
      (default_level + 1) :: o.def_levels, (default_level + 1) :: o.rep_levels⟩

/-- auto_ser (writer_parquet.rs lines 486-537): encode one document's
ordered sequence of optional sentence identifications into value arrays plus
definition/repetition level arrays, relative to the enclosing base
(default) level.  The first entry is treated specially (lines 498-513):
absent gives definition and repetition default_level, present gives
definition default_level + 1 and repetition default_level.  An empty
sequence panics in the source (line 499), modelled as none. -/
def autoSer (sentenceids : List (Option Identification))
    (default_level : Nat) : Option AutoSerOut :=
  match sentenceids with
  | [] => none
  | none :: rest =>
    let o := autoSerRest default_level rest
    some ⟨none :: o.ids, none :: o.probs,
      default_level :: o.def_levels, default_level :: o.rep_levels⟩
  | some sid :: rest =>
    let o := autoSerRest default_level rest
    some ⟨some sid.label :: o.ids, some sid.prob :: o.probs,
      (default_level + 1) :: o.def_levels, default_level :: o.rep_levels⟩

/-- The column grouping of a document batch (writer_parquet.rs DocGroup::new,
lines 108-132): one projection list per schema field, nb_col initialised to
zero. -/
structure DocGroup where
  contents : List String
  warc_headers : List (List (String × String))
  annotations : List (Option (List String))
  ids : List Identification
  line_ids : List (List (Option Identification))
  nb_col : Nat

/-- DocGroup::new (writer_parquet.rs lines 109-131): push each document's
fields onto the per-column vectors. -/
def DocGroup.new (docs : List Document) : DocGroup where
  contents := docs.map (fun d => d.content)
  warc_headers := docs.map (fun d => d.warc_headers)
  annotations := docs.map (fun d => d.metadata.annotations)
  ids := docs.map (fun d => d.metadata.identification)
  line_ids := docs.map (fun d => d.metadata.sentence_identifications)
  nb_col := 0

/-- The outcome of running a Rust function that may diverge by panicking:
either a normal Result or a panic (todo! / panic!). -/
inductive RunResult (α : Type) where
  | ok (a : α)
  | err (e : Error)
  | panicked

/-- ParquetWriter::write_docs (writer_parquet.rs lines 90-95): group the
documents into columns, then hit the todo!() macro, which panics
unconditionally. -/
def writeDocs (docs : List Document) : RunResult Unit :=
  let _doc_grouped := DocGroup.new docs
  RunResult.panicked

/-- The item type every document iterator in reader.rs yields. -/
abbrev Item := Except Error Document

/-- The shape of one Iterator::next body, with the receiver's recursive
self.next() calls abstracted as the recur parameter. -/
def NextBody (σ : Type) : Type :=
  (σ → Option (Option Item × σ)) → σ → Option (Option Item × σ)

/-- A next body is monotone when it forwards some-answers of its recursive
calls: giving the recursion more fuel can only turn out-of-fuel answers
(none) into real answers, never change a real answer. -/
def BodyMono {σ : Type} (body : NextBody σ) : Prop :=
  ∀ (recur recur₂ : σ → Option (Option Item × σ)),
    (∀ s r, recur s = some r → recur₂ s = some r) →
    ∀ s r, body recur s = some r → body recur₂ s = some r

/-- Run a next body with a bound on the depth of self.next() recursion: the
outer none means the bound was exceeded (the Rust code would have recursed
deeper), some (none, st) is clean iterator end, some (some it, st) yields
one item. -/
def iterNext {σ : Type} (body : NextBody σ) : Nat → σ → Option (Option Item × σ)
  | 0 => body (fun _ => none)
  | fuel + 1 => body (iterNext body fuel)

/-- Pull repeatedly, collecting every yielded item until a clean iterator
end; none when the fuel ran out first. -/
def iterCollect {σ : Type} (body : NextBody σ) : Nat → σ → Option (List Item)
  | 0, _ => none
  | fuel + 1, st =>
    match iterNext body fuel st with
    | none => none
    | some (none, _) => some []
    | some (some it, st₂) => (iterCollect body fuel st₂).map (fun l => it :: l)

/-- The iterator started at st yields exactly the items of out, in order,
and then ends cleanly. -/
def Runs {σ : Type} (body : NextBody σ) (st : σ) (out : List Item) : Prop :=
  ∃ fuel, iterCollect body fuel st = some out

theorem iterNext_mono {σ : Type} {body : NextBody σ} (hm : BodyMono body) :
    ∀ (fuel : Nat) (st : σ) (r : Option Item × σ),
      iterNext body fuel st = some r → iterNext body (fuel + 1) st = some r := by
  intro fuel
  induction fuel with
  | zero =>
    intro st r h
    exact hm _ _ (fun s x hx => by simp at hx) st r h
  | succ f ih =>
    intro st r h
    exact hm _ _ (fun s x hx => ih s x hx) st r h

theorem iterNext_mono_le {σ : Type} {body : NextBody σ} (hm : BodyMono body)
    {f g : Nat} (hfg : f ≤ g) (st : σ) (r : Option Item × σ)
    (h : iterNext body f st = some r) : iterNext body g st = some r := by
  induction hfg with
  | refl => exact h
  | step _ ih => exact iterNext_mono hm _ st r ih

theorem iterCollect_succ_eq {σ : Type} (body : NextBody σ) (f : Nat) (st : σ) :
    iterCollect body (f + 1) st =
      match iterNext body f st with
      | none => none
      | some (none, _) => some []
      | some (some it, st₂) => (iterCollect body f st₂).map (fun l => it :: l) :=
  rfl

theorem iterCollect_mono {σ : Type} {body : NextBody σ} (hm : BodyMono body) :
    ∀ (fuel : Nat) (st : σ) (out : List Item),
      iterCollect body fuel st = some out →
      iterCollect body (fuel + 1) st = some out := by
  intro fuel
  induction fuel with
  | zero => intro st out h; simp [iterCollect] at h
  | succ f ih =>
    intro st out h
    rw [iterCollect_succ_eq] at h
    cases hx : iterNext body f st with
    | none => rw [hx] at h; exact absurd h (by simp)
    | some r =>
      rw [hx] at h
      rw [iterCollect_succ_eq, iterNext_mono hm f st r hx]
      obtain ⟨oi, st₂⟩ := r
      cases oi with
      | none => exact h
      | some it =>
        dsimp only at h ⊢
        cases hc : iterCollect body f st₂ with
        | none => rw [hc] at h; simp at h
        | some l => rw [hc] at h; rw [ih st₂ l hc]; exact h

theorem iterCollect_mono_le {σ : Type} {body : NextBody σ} (hm : BodyMono body)
    {f g : Nat} (hfg : f ≤ g) (st : σ) (out : List Item)
    (h : iterCollect body f st = some out) : iterCollect body g st = some out := by
  induction hfg with
  | refl => exact h
  | step _ ih => exact iterCollect_mono hm _ st out ih

/-- If one pull from st just forwards the pull from st₂ (a rotation or a
file close), every run from st₂ is a run from st. -/
theorem runs_defer {σ : Type} {body : NextBody σ} (hm : BodyMono body)
    {st st₂ : σ} {out : List Item}
    (hstep : ∀ recur, body recur st = recur st₂)
    (h : Runs body st₂ out) : Runs body st out := by
  obtain ⟨fuel, hf⟩ := h
  cases fuel with
  | zero => simp [iterCollect] at hf
  | succ g =>
    refine ⟨g + 2, ?_⟩
    have hnext : iterNext body (g + 1) st = iterNext body g st₂ :=
      hstep (iterNext body g)
    rw [iterCollect_succ_eq] at hf
    rw [iterCollect_succ_eq, hnext]
    cases hx : iterNext body g st₂ with
    | none => rw [hx] at hf; exact absurd hf (by simp)
    | some r =>
      rw [hx] at hf
      obtain ⟨oi, st₃⟩ := r
      cases oi with
      | none => exact hf
      | some it =>
        dsimp only at hf ⊢
        cases hc : iterCollect body g st₃ with
        | none => rw [hc] at hf; simp at hf
        | some l => rw [hc] at hf; rw [iterCollect_mono hm g st₃ l hc]; exact hf

/-- If one pull from st yields the item it and moves to st₂, a run from st₂
prepends it. -/
theorem runs_cons {σ : Type} {body : NextBody σ} {st st₂ : σ} {it : Item}
    {out : List Item}
    (hstep : ∀ recur, body recur st = some (some it, st₂))
    (h : Runs body st₂ out) : Runs body st (it :: out) := by
  obtain ⟨fuel, hf⟩ := h
  refine ⟨fuel + 1, ?_⟩
  have hx : iterNext body fuel st = some (some it, st₂) := by
    cases fuel with
    | zero => exact hstep _
    | succ f => exact hstep _
  rw [iterCollect_succ_eq, hx]
  dsimp only
  rw [hf]
  rfl

/-- If one pull from st is a clean iterator end, st runs to the empty
output. -/
theorem runs_end {σ : Type} {body : NextBody σ} {st st₂ : σ}
    (hstep : ∀ recur, body recur st = some (none, st₂)) : Runs body st [] := by
  refine ⟨1, ?_⟩
  rw [iterCollect_succ_eq, show iterNext body 0 st = some (none, st₂) from hstep _]

/-- The state of SplitFileIter (reader.rs lines 96-107): the naming
configuration, the starting counter, the current counter and the currently
open file, modelled as the remaining byte stream of its DocReader. -/
structure SplitFileIter where
  base_path : String
  file_name_start : String
  file_name_end : String
  file_name_extension : String
  counter_start : Nat
  counter : Nat
  current_file : Option (List Char)

/-- SplitFileIter::new (reader.rs lines 109-125): counter starts at
counter_start, no file open. -/
def SplitFileIter.new (base_path file_name_start file_name_end
    file_name_extension : String) (counter_start : Nat) : SplitFileIter :=
  ⟨base_path, file_name_start, file_name_end, file_name_extension,
    counter_start, counter_start, none⟩

/-- The full path SplitFileIter::rotate_file builds for a given counter
value (reader.rs lines 128-133): base_path joined with
file_name_start ++ counter ++ file_name_end ++ file_name_extension. -/
def filePathAt (st : SplitFileIter) (c : Nat) : String :=
  st.base_path ++ "/" ++
    (st.file_name_start ++ toString c ++ st.file_name_end ++
      st.file_name_extension)

/-- SplitFileIter::rotate_file (reader.rs lines 127-149): open the file at
the current counter (the filesystem is the parameter fs, giving each path a
content stream or an open error); on success increment the counter and
install a DocReader over the opened file, on failure return the error
unchanged. -/
def rotateFile (fs : String → Except Error (List Char)) (st : SplitFileIter) :
    Except Error SplitFileIter :=
  match fs (filePathAt st st.counter) with
  | .ok f => .ok {st with counter := st.counter + 1, current_file := some f}
  | .error e => .error e

/-- The body of SplitFileIter::next (reader.rs lines 159-204), with its two
recursive self.next() calls abstracted as recur.  With no open file, rotate:
on success recurse; on a NotFound io error with the counter strictly past
counter_start (at least one prior successful rotation) end the iterator
cleanly; on any other rotation failure yield the error.  With an open file,
yield its next item without touching it, or close it and recurse when it is
at end of stream. -/
def splitNextBody (parse : String → Except Error Document)
    (fs : String → Except Error (List Char)) : NextBody SplitFileIter :=
  fun recur st =>
    match st.current_file with
    | none =>
      match rotateFile fs st with
      | .ok strot => recur strot
      | .error (.io kind) =>
        if kind = IoKind.notFound ∧ st.counter_start < st.counter then
          some (none, st)
        else
          some (some (.error (.io kind)), st)
      | .error e => some (some (.error e), st)
    | some file =>
      match docNext parse file with
      | some (res, rest) => some (some res, {st with current_file := some rest})
      | none => recur {st with current_file := none}

/-- SplitFileIter::next with an explicit bound on the depth of its
self.next() recursion: none means the bound was exceeded. -/
def splitNext (parse : String → Except Error Document)
    (fs : String → Except Error (List Char)) :
    Nat → SplitFileIter → Option (Option Item × SplitFileIter) :=
  iterNext (splitNextBody parse fs)

theorem splitNextBody_mono (parse : String → Except Error Document)
    (fs : String → Except Error (List Char)) :
    BodyMono (splitNextBody parse fs) := by
  intro recur recur₂ hr st r h
  simp only [splitNextBody] at h ⊢
  cases hc : st.current_file with
  | none =>
    rw [hc] at h
    cases hrot : rotateFile fs st with
    | ok strot => rw [hrot] at h; exact hr _ _ h
    | error e =>
      rw [hrot] at h
      cases e with
      | io kind => exact h
      | serdeJson => exact h
      | custom msg => exact h
  | some file =>
    rw [hc] at h
    dsimp only at h ⊢
    cases hd : docNext parse file with
    | none => rw [hd] at h; exact hr _ _ h
    | some p => rw [hd] at h; exact h

/-- With no open file and an open failure at the current index, one pull
answers immediately (no recursion): clean end exactly when the failure is
NotFound and the counter moved past counter_start, a fatal error item
otherwise. -/
theorem splitNextBody_open_error (parse : String → Except Error Document)
    (fs : String → Except Error (List Char))
    (recur : SplitFileIter → Option (Option Item × SplitFileIter))
    (st : SplitFileIter) (e : Error)
    (hcur : st.current_file = none)
    (hfs : fs (filePathAt st st.counter) = .error e) :
    splitNextBody parse fs recur st =
      if e = .io IoKind.notFound ∧ st.counter_start < st.counter then
        some (none, st)
      else
        some (some (.error e), st) := by
  simp only [splitNextBody, hcur, rotateFile, hfs]
  cases e with
  | io kind => cases kind <;> simp [Error.io.injEq]
  | serdeJson => simp
  | custom msg => simp

/-- With no open file and a successful open at the current index, one pull
defers to the recursion on the rotated state. -/
theorem splitNextBody_open_ok (parse : String → Except Error Document)
    (fs : String → Except Error (List Char))
    (recur : SplitFileIter → Option (Option Item × SplitFileIter))
    (st : SplitFileIter) (f : List Char)
    (hcur : st.current_file = none)
    (hfs : fs (filePathAt st st.counter) = .ok f) :
    splitNextBody parse fs recur st =
      recur {st with counter := st.counter + 1, current_file := some f} := by
  simp [splitNextBody, hcur, rotateFile, hfs]

/-- With an exhausted open file, one pull closes it and defers to the
recursion. -/
theorem splitNextBody_file_done (parse : String → Except Error Document)
    (fs : String → Except Error (List Char))
    (recur : SplitFileIter → Option (Option Item × SplitFileIter))
    (st : SplitFileIter) (hcur : st.current_file = some []) :
    splitNextBody parse fs recur st = recur {st with current_file := none} := by
  simp [splitNextBody, hcur, docNext]

/-- With a non-exhausted open file, one pull yields the file's next item and
keeps the file open at the advanced position, whatever the recursion
budget. -/
theorem splitNextBody_file_item (parse : String → Except Error Document)
    (fs : String → Except Error (List Char))
    (recur : SplitFileIter → Option (Option Item × SplitFileIter))
    (st : SplitFileIter) (file : List Char) (res : Item) (rest : List Char)
    (hcur : st.current_file = some file)
    (hd : docNext parse file = some (res, rest)) :
    splitNextBody parse fs recur st =
      some (some res, {st with current_file := some rest}) := by
  simp [splitNextBody, hcur, hd]

/-- Consuming the currently open file yields exactly its DocReader items
before whatever the closed-file state then runs to. -/
theorem splitRuns_consume (parse : String → Except Error Document)
    (fs : String → Except Error (List Char)) :
    ∀ (len : Nat) (cs : List Char), cs.length = len →
      ∀ (st : SplitFileIter) (out : List Item),
        st.current_file = some cs →
        Runs (splitNextBody parse fs) {st with current_file := none} out →
        Runs (splitNextBody parse fs) st (readAll parse cs ++ out) := by
  intro len
  induction len using Nat.strong_induction_on with
  | _ len ih =>
    intro cs hlen st out hcur hrun
    cases hcs : cs with
    | nil =>
      subst hcs
      rw [readAll_nil, List.nil_append]
      exact runs_defer (splitNextBody_mono parse fs)
        (fun recur => splitNextBody_file_done parse fs recur st hcur) hrun
    | cons c rest =>
      subst hcs
      have hne : (c :: rest) ≠ [] := by simp
      rw [readAll_cons parse _ hne, List.cons_append]
      have hd : docNext parse (c :: rest) =
          some (parse (String.mk (splitLine (c :: rest)).1),
            (splitLine (c :: rest)).2) := rfl
      refine runs_cons
        (fun recur => splitNextBody_file_item parse fs recur st _ _ _ hcur hd) ?_
      have hlt := splitLine_rest_lt (c :: rest) hne
      exact ih (splitLine (c :: rest)).2.length (hlen ▸ hlt) _ rfl
        {st with current_file := some (splitLine (c :: rest)).2} out rfl hrun

/-- Path construction only reads the naming configuration, which no state
update of the iterator touches. -/
theorem filePathAt_update (st : SplitFileIter) (c c₂ : Nat)
    (cf : Option (List Char)) :
    filePathAt {st with counter := c₂, current_file := cf} c =
      filePathAt st c := rfl

/-- Over a contiguous run of openable shards followed by a missing index
reached past counter_start, the iterator runs to the concatenation of the
shards' DocReader items and ends cleanly. -/
theorem splitRuns_shards (parse : String → Except Error Document)
    (fs : String → Except Error (List Char)) :
    ∀ (shards : List (List Char)) (st : SplitFileIter),
      st.current_file = none →
      (∀ i, i < shards.length →
        fs (filePathAt st (st.counter + i)) = .ok (shards.getD i [])) →
      fs (filePathAt st (st.counter + shards.length)) =
        .error (.io IoKind.notFound) →
      st.counter_start < st.counter + shards.length →
      Runs (splitNextBody parse fs) st
        ((shards.map (readAll parse)).flatten) := by
  intro shards
  induction shards with
  | nil =>
    intro st hcur hfiles hmiss hgt
    simp only [List.map_nil, List.flatten_nil]
    have hstep : ∀ recur, splitNextBody parse fs recur st = some (none, st) := by
      intro recur
      rw [splitNextBody_open_error parse fs recur st (.io IoKind.notFound) hcur
        (by simpa using hmiss)]
      rw [if_pos ⟨rfl, by simpa using hgt⟩]
    exact runs_end hstep
  | cons a rest ih =>
    intro st hcur hfiles hmiss hgt
    have hopen : fs (filePathAt st st.counter) = .ok a := by
      simpa using hfiles 0 (by simp)
    refine runs_defer (splitNextBody_mono parse fs)
      (fun recur => splitNextBody_open_ok parse fs recur st a hcur hopen) ?_
    simp only [List.map_cons, List.flatten_cons]
    refine splitRuns_consume parse fs a.length a rfl
      {st with counter := st.counter + 1, current_file := some a} _ rfl ?_
    refine ih {st with counter := st.counter + 1, current_file := none} rfl
      ?_ ?_ ?_
    · intro i hi
      have := hfiles (i + 1) (by simpa using hi)
      rw [filePathAt_update]
      have harith : st.counter + 1 + i = st.counter + (i + 1) := by omega
      rw [harith]
      simpa using this
    · rw [filePathAt_update]
      have harith : st.counter + 1 + rest.length =
          st.counter + (a :: rest).length := by simp; omega
      rw [harith]
      exact hmiss
    · have hgt2 : st.counter_start < st.counter + (rest.length + 1) := by
        simpa using hgt
      show st.counter_start < st.counter + 1 + rest.length
      omega

/-- Over a run of k consecutive empty shards, answering a single pull needs
recursion depth at least 2k: each empty shard costs one rotation recursion
and one close recursion.  Any budget below that runs out of fuel. -/
theorem splitNext_empties_no_fuel (parse : String → Except Error Document)
    (fs : String → Except Error (List Char)) :
    ∀ (k : Nat) (st : SplitFileIter),
      st.current_file = none →
      (∀ i, i < k → fs (filePathAt st (st.counter + i)) = .ok []) →
      ∀ f, f < 2 * k → splitNext parse fs f st = none := by
  intro k
  induction k with
  | zero => intro st _ _ f hf; exact absurd hf (by omega)
  | succ k ih =>
    intro st hcur hfiles f hf
    have hopen : fs (filePathAt st st.counter) = .ok [] := by
      simpa using hfiles 0 (by omega)
    cases f with
    | zero =>
      show splitNextBody parse fs (fun _ => none) st = none
      rw [splitNextBody_open_ok parse fs _ st [] hcur hopen]
    | succ f1 =>
      have h1 : splitNext parse fs (f1 + 1) st = splitNext parse fs f1
          {st with counter := st.counter + 1, current_file := some []} :=
        splitNextBody_open_ok parse fs _ st [] hcur hopen
      rw [h1]
      cases f1 with
      | zero =>
        exact splitNextBody_file_done parse fs (fun _ => none)
          {st with counter := st.counter + 1, current_file := some []} rfl
      | succ f2 =>
        have h2 : splitNext parse fs (f2 + 1)
            {st with counter := st.counter + 1, current_file := some []} =
              splitNext parse fs f2
                {st with counter := st.counter + 1, current_file := none} :=
          splitNextBody_file_done parse fs (splitNext parse fs f2)
            {st with counter := st.counter + 1, current_file := some []} rfl
        rw [h2]
        refine ih {st with counter := st.counter + 1, current_file := none} rfl
          ?_ f2 (by omega)
        intro i hi
        rw [filePathAt_update]
        have harith : st.counter + 1 + i = st.counter + (i + 1) := by omega
        rw [harith]
        exact hfiles (i + 1) (by omega)

/-- Over k consecutive empty shards followed by a missing index reached past
counter_start, recursion depth 2k does answer the pull, with a clean end. -/
theorem splitNext_empties_ends (parse : String → Except Error Document)
    (fs : String → Except Error (List Char)) :
    ∀ (k : Nat) (st : SplitFileIter),
      st.current_file = none →
      (∀ i, i < k → fs (filePathAt st (st.counter + i)) = .ok []) →
      fs (filePathAt st (st.counter + k)) = .error (.io IoKind.notFound) →
      st.counter_start < st.counter + k →
      ∃ st₂, splitNext parse fs (2 * k) st = some (none, st₂) := by
  intro k
  induction k with
  | zero =>
    intro st hcur hfiles hmiss hgt
    refine ⟨st, ?_⟩
    show splitNextBody parse fs (fun _ => none) st = some (none, st)
    rw [splitNextBody_open_error parse fs _ st _ hcur (by simpa using hmiss)]
    rw [if_pos ⟨rfl, by simpa using hgt⟩]
  | succ k ih =>
    intro st hcur hfiles hmiss hgt
    have hopen : fs (filePathAt st st.counter) = .ok [] := by
      simpa using hfiles 0 (by omega)
    have h2k : 2 * (k + 1) = 2 * k + 1 + 1 := by omega
    rw [h2k]
    have h1 : splitNext parse fs (2 * k + 1 + 1) st = splitNext parse fs
        (2 * k + 1) {st with counter := st.counter + 1, current_file := some []} :=
      splitNextBody_open_ok parse fs _ st [] hcur hopen
    rw [h1]
    have h2 : splitNext parse fs (2 * k + 1)
        {st with counter := st.counter + 1, current_file := some []} =
          splitNext parse fs (2 * k)
            {st with counter := st.counter + 1, current_file := none} :=
      splitNextBody_file_done parse fs (splitNext parse fs (2 * k))
        {st with counter := st.counter + 1, current_file := some []} rfl
    rw [h2]
    refine ih {st with counter := st.counter + 1, current_file := none} rfl
      ?_ ?_ ?_
    · intro i hi
      rw [filePathAt_update]
      have harith : st.counter + 1 + i = st.counter + (i + 1) := by omega
      rw [harith]
      exact hfiles (i + 1) (by omega)
    · rw [filePathAt_update]
      have harith : st.counter + 1 + k = st.counter + (k + 1) := by omega
      rw [harith]
      exact hmiss
    · show st.counter_start < st.counter + 1 + k
      omega

/-- The state of SplitFolderFileIter (reader.rs lines 207-213): the current
open file (the remaining stream of its DocReader), the queued file paths in
the stored Vec order (construction pushes them sorted then reversed so that
Vec::pop serves them in sorted order), and the progress counters. -/
structure SplitFolderFileIter where
  current_file : Option (List Char)
  files : List String
  nb_files : Nat
  files_done : Nat

/-- Vec::pop: remove and return the last element of the vector. -/
def vecPop {α : Type} : List α → Option α × List α
  | [] => (none, [])
  | [a] => (some a, [])
  | a :: b :: rest =>
    let p := vecPop (b :: rest)
    (p.1, a :: p.2)

theorem vecPop_eq {α : Type} : ∀ (l : List α),
    vecPop l = (l.getLast?, l.dropLast) := by
  intro l
  induction l with
  | nil => rfl
  | cons a rest ih =>
    cases rest with
    | nil => rfl
    | cons b tl =>
      simp only [vecPop, ih]
      simp [List.getLast?_cons_cons, List.dropLast]

/-- Fuelled repeated popping, recording the order entries leave the
queue. -/
def vecPopAllFuel {α : Type} : Nat → List α → List α
  | 0, _ => []
  | fuel + 1, l =>
    match vecPop l with
    | (none, _) => []
    | (some p, rest) => p :: vecPopAllFuel fuel rest

/-- The order in which Vec::pop consumes a queue, first popped first. -/
def vecPopAll {α : Type} (l : List α) : List α :=
  vecPopAllFuel l.length l

theorem vecPopAllFuel_reverse_aux {α : Type} : ∀ (len : Nat) (l : List α),
    l.length = len → ∀ (n : Nat), l.length ≤ n →
    vecPopAllFuel n l = l.reverse := by
  intro len
  induction len using Nat.strong_induction_on with
  | _ len ih =>
    intro l hlen n hn
    cases hL : l.getLast? with
    | none =>
      have hnil : l = [] := by simpa using hL
      subst hnil
      cases n <;> simp [vecPopAllFuel, vecPop]
    | some p =>
      have hne : l ≠ [] := by
        intro hnil
        rw [hnil] at hL
        simp at hL
      cases n with
      | zero =>
        exact absurd (Nat.le_zero.mp hn) (by simpa using hne)
      | succ n' =>
        simp only [vecPopAllFuel, vecPop_eq, hL]
        have hlt : l.dropLast.length < l.length := by
          rw [List.length_dropLast]
          have : 0 < l.length := List.length_pos.mpr hne
          omega
        rw [ih l.dropLast.length (hlen ▸ hlt) l.dropLast rfl n'
          (by omega)]
        have hp : p = l.getLast hne := by
          have hg := List.getLast?_eq_getLast l hne
          rw [hL] at hg
          exact (Option.some_inj.mp hg.symm).symm
        rw [hp]
        conv_rhs => rw [← List.dropLast_append_getLast hne]
        simp

theorem vecPopAll_reverse {α : Type} (l : List α) :
    vecPopAll l = l.reverse :=
  vecPopAllFuel_reverse_aux l.length l rfl l.length le_rfl

/-- The deterministic path sort of the construction (sort_unstable on the
full paths, lexicographic String order). -/
def sortPaths (files : List String) : List String :=
  files.mergeSort (fun a b => decide (a ≤ b))

theorem sortPaths_sorted (files : List String) :
    List.Sorted (fun a b : String => a ≤ b) (sortPaths files) := by
  have h := @List.sorted_mergeSort String
    (fun a b : String => decide (a ≤ b))
    (fun a b c hab hbc => by
      simp only [decide_eq_true_eq] at hab hbc ⊢
      exact le_trans hab hbc)
    (fun a b => by
      simp only [Bool.or_eq_true, decide_eq_true_eq]
      exact le_total a b)
    files
  exact h.imp (fun hab => by simpa using hab)

theorem sortPaths_perm (files : List String) :
    (sortPaths files).Perm files :=
  List.mergeSort_perm files _

/-- SplitFolderFileIter::new (reader.rs lines 217-260) against an abstract
filesystem: is_file answers Path::is_file and readDir models
std::fs::read_dir, listing a directory's immediate entries as full paths
(or failing).  A plain-file location queues exactly that file; a directory
location keeps only its plain-file entries, fails with a Custom error when
none remain, and otherwise queues them sorted and then reversed (so that
Vec::pop serves them in sorted order), with nb_files their count. -/
def SplitFolderFileIter.new (is_file : String → Bool)
    (readDir : String → Except Error (List String)) (folder : String) :
    Except Error SplitFolderFileIter :=
  if is_file folder then
    .ok ⟨none, [folder], 1, 0⟩
  else
    match readDir folder with
    | .ok entries =>
      let files := entries.filter (fun p => is_file p)
      if files = [] then
        .error (.custom ("No files found in " ++ folder))
      else
        .ok ⟨none, (sortPaths files).reverse, (sortPaths files).reverse.length, 0⟩
    | .error e => .error e

/-- SplitFolderFileIter::open_next_file (reader.rs lines 262-284): pop the
next queued path (the pop removes the entry unconditionally); with nothing
queued answer none; otherwise open the path, installing a DocReader and
bumping files_done on success, or yielding the open error with the entry
already discarded. -/
def openNextFile (fs : String → Except Error (List Char))
    (st : SplitFolderFileIter) :
    Option (Except Error Unit) × SplitFolderFileIter :=
  match vecPop st.files with
  | (some p, rest) =>
    match fs p with
    | .ok f =>
      (some (.ok ()),
        {st with
          files := rest
          current_file := some f
          files_done := st.files_done + 1})
    | .error e => (some (.error e), {st with files := rest})
  | (none, rest) => (none, {st with files := rest})

/-- The body of SplitFolderFileIter::next (reader.rs lines 287-319), with
its two recursive self.next() calls abstracted as recur: with no open file,
open the next queued one - recursing on success, yielding the open error as
a single item on failure, ending cleanly on queue exhaustion; with an open
file, yield its next item, or close it and recurse at its end of stream. -/
def folderNextBody (parse : String → Except Error Document)
    (fs : String → Except Error (List Char)) : NextBody SplitFolderFileIter :=
  fun recur st =>
    match st.current_file with
    | none =>
      match openNextFile fs st with
      | (some (.ok _), st₂) => recur st₂
      | (some (.error e), st₂) => some (some (.error e), st₂)
      | (none, st₂) => some (none, st₂)
    | some file =>
      match docNext parse file with
      | some (res, rest) => some (some res, {st with current_file := some rest})
      | none => recur {st with current_file := none}

/-- SplitFolderFileIter::next with an explicit bound on the depth of its
self.next() recursion: none means the bound was exceeded. -/
def folderNext (parse : String → Except Error Document)
    (fs : String → Except Error (List Char)) :
    Nat → SplitFolderFileIter → Option (Option Item × SplitFolderFileIter) :=
  iterNext (folderNextBody parse fs)

theorem folderNextBody_mono (parse : String → Except Error Document)
    (fs : String → Except Error (List Char)) :
    BodyMono (folderNextBody parse fs) := by
  intro recur recur₂ hr st r h
  simp only [folderNextBody] at h ⊢
  cases hc : st.current_file with
  | none =>
    rw [hc] at h
    dsimp only at h ⊢
    cases ho : openNextFile fs st with
    | mk o st₂ =>
      rw [ho] at h
      cases o with
      | none => exact h
      | some u =>
        cases u with
        | ok v => exact hr _ _ h
        | error e => exact h
  | some file =>
    rw [hc] at h
    dsimp only at h ⊢
    cases hd : docNext parse file with
    | none => rw [hd] at h; exact hr _ _ h
    | some p => rw [hd] at h; exact h

/-- With no open file and a queued path whose open fails, one pull yields
exactly that error, discards the entry and leaves no file open, whatever
the recursion budget. -/
theorem folderNextBody_open_error (parse : String → Except Error Document)
    (fs : String → Except Error (List Char))
    (recur : SplitFolderFileIter → Option (Option Item × SplitFolderFileIter))
    (st : SplitFolderFileIter) (p : String) (rest : List String) (e : Error)
    (hcur : st.current_file = none)
    (hpop : vecPop st.files = (some p, rest))
    (hfs : fs p = .error e) :
    folderNextBody parse fs recur st =
      some (some (.error e), {st with files := rest}) := by
  simp [folderNextBody, hcur, openNextFile, hpop, hfs]

/-- With no open file and a queued path that opens, one pull defers to the
recursion on the state with the file installed. -/
theorem folderNextBody_open_ok (parse : String → Except Error Document)
    (fs : String → Except Error (List Char))
    (recur : SplitFolderFileIter → Option (Option Item × SplitFolderFileIter))
    (st : SplitFolderFileIter) (p : String) (rest : List String) (f : List Char)
    (hcur : st.current_file = none)
    (hpop : vecPop st.files = (some p, rest))
    (hfs : fs p = .ok f) :
    folderNextBody parse fs recur st =
      recur {st with
        files := rest
        current_file := some f
        files_done := st.files_done + 1} := by
  simp [folderNextBody, hcur, openNextFile, hpop, hfs]

/-- With no open file and an exhausted queue, one pull ends the iterator
cleanly. -/
theorem folderNextBody_queue_empty (parse : String → Except Error Document)
    (fs : String → Except Error (List Char))
    (recur : SplitFolderFileIter → Option (Option Item × SplitFolderFileIter))
    (st : SplitFolderFileIter) (rest : List String)
    (hcur : st.current_file = none)
    (hpop : vecPop st.files = (none, rest)) :
    folderNextBody parse fs recur st = some (none, {st with files := rest}) := by
  simp [folderNextBody, hcur, openNextFile, hpop]

/-- With an exhausted open file, one pull closes it and defers to the
recursion. -/
theorem folderNextBody_file_done (parse : String → Except Error Document)
    (fs : String → Except Error (List Char))
    (recur : SplitFolderFileIter → Option (Option Item × SplitFolderFileIter))
    (st : SplitFolderFileIter) (hcur : st.current_file = some []) :
    folderNextBody parse fs recur st = recur {st with current_file := none} := by
  simp [folderNextBody, hcur, docNext]

/-- With a non-exhausted open file, one pull yields its next item and keeps
it open at the advanced position. -/
theorem folderNextBody_file_item (parse : String → Except Error Document)
    (fs : String → Except Error (List Char))
    (recur : SplitFolderFileIter → Option (Option Item × SplitFolderFileIter))
    (st : SplitFolderFileIter) (file : List Char) (res : Item) (rest : List Char)
    (hcur : st.current_file = some file)
    (hd : docNext parse file = some (res, rest)) :
    folderNextBody parse fs recur st =
      some (some res, {st with current_file := some rest}) := by
  simp [folderNextBody, hcur, hd]

/-- Consuming the currently open file yields exactly its DocReader items
before whatever the closed-file state then runs to (folder variant). -/
theorem folderRuns_consume (parse : String → Except Error Document)
    (fs : String → Except Error (List Char)) :
    ∀ (len : Nat) (cs : List Char), cs.length = len →
      ∀ (st : SplitFolderFileIter) (out : List Item),
        st.current_file = some cs →
        Runs (folderNextBody parse fs) {st with current_file := none} out →
        Runs (folderNextBody parse fs) st (readAll parse cs ++ out) := by
  intro len
  induction len using Nat.strong_induction_on with
  | _ len ih =>
    intro cs hlen st out hcur hrun
    cases hcs : cs with
    | nil =>
      subst hcs
      rw [readAll_nil, List.nil_append]
      exact runs_defer (folderNextBody_mono parse fs)
        (fun recur => folderNextBody_file_done parse fs recur st hcur) hrun
    | cons c rest =>
      subst hcs
      have hne : (c :: rest) ≠ [] := by simp
      rw [readAll_cons parse _ hne, List.cons_append]
      have hd : docNext parse (c :: rest) =
          some (parse (String.mk (splitLine (c :: rest)).1),
            (splitLine (c :: rest)).2) := rfl
      refine runs_cons
        (fun recur => folderNextBody_file_item parse fs recur st _ _ _ hcur hd) ?_
      have hlt := splitLine_rest_lt (c :: rest) hne
      exact ih (splitLine (c :: rest)).2.length (hlen ▸ hlt) _ rfl
        {st with current_file := some (splitLine (c :: rest)).2} out rfl hrun

/-- DocReader::from_gzip (reader.rs lines 35-41): wrap the raw stream in a
MultiGzDecoder (the flate2 multi-member gzip decoder, modelled as the
abstract function decode) and a BufReader, then read documents from the
decoded stream; the constructed reader's stream is exactly the decoded
bytes. -/
def fromGzip (decode : List Char → List Char) (r : List Char) : List Char :=
  decode r

theorem docNext_ne (parse : String → Except Error Document) (r : List Char)
    (h : r ≠ []) :
    docNext parse r =
      some (parse (String.mk (splitLine r).1), (splitLine r).2) := by
  cases r with
  | nil => exact absurd rfl h
  | cons c rest => rfl

/-- C1: the code refutes the claim at the pattern [present, absent]: for
every base level b the later absent entry receives definition b + 1 but
repetition b (writer_parquet.rs line 521), where the claim (and the test's
own rep_expected array) requires repetition b + 1 for every later entry. -/
theorem autoSer_later_absent_gets_base_repetition (b : Nat)
    (ident : Identification) :
    autoSer [some ident, none] b =
      some ⟨[some ident.label, none], [some ident.prob, none],
        [b + 1, b + 1], [b, b]⟩ :=
  rfl

/-- C2 counterexample: both claimed encodings fail on the code at explicit
inputs: with base 0, pattern [present, absent, present, present] gets
repetition levels [0,0,1,1] rather than the claimed [0,1,1,1], and pattern
[absent, present] gets repetition levels [0,1] rather than the claimed
[0,0]. -/
theorem autoSer_claimed_patterns_refuted :
    (autoSer [some ⟨"en", 1.0⟩, none, some ⟨"az", 0.2⟩, some ⟨"am", 0.3⟩]
        0).map AutoSerOut.rep_levels ≠ some [0, 1, 1, 1] ∧
      (autoSer [none, some ⟨"fr", 0.9⟩] 0).map AutoSerOut.rep_levels ≠
        some [0, 0] := by
  constructor <;> decide

/-- C2 amended: encoding [present, absent, present, present] with base 0
produces repetition levels [0,0,1,1] and definition levels [1,1,1,1], and
encoding [absent, present] with base b produces repetition levels
[b, b+1] and definition levels [b, b+1]. -/
theorem autoSer_patterns_amended (b : Nat) (i1 i3 i4 i5 : Identification) :
    (autoSer [some i1, none, some i3, some i4] 0).map AutoSerOut.rep_levels =
        some [0, 0, 1, 1] ∧
      (autoSer [some i1, none, some i3, some i4] 0).map AutoSerOut.def_levels =
        some [1, 1, 1, 1] ∧
      (autoSer [none, some i5] b).map AutoSerOut.rep_levels =
        some [b, b + 1] ∧
      (autoSer [none, some i5] b).map AutoSerOut.def_levels =
        some [b, b + 1] :=
  ⟨rfl, rfl, rfl, rfl⟩

/-- C3: ParquetWriter::write_docs groups any batch (the empty one included)
into columns and then hits the unconditional todo!() panic, so it never
produces a normal return or an error value. -/
theorem writeDocs_always_panics (docs : List Document) :
    writeDocs docs = RunResult.panicked :=
  rfl

/-- C4: one pull of SplitFileIter with no source open, when the open at the
current index fails: a NotFound failure with the counter strictly past
counter_start (the code's record that at least one prior shard was opened
this run) ends the sequence cleanly; a NotFound failure with the counter
still at counter_start (the very first attempted index), or any other
failure, yields a fatal error item - whatever the recursion budget. -/
theorem splitFileIter_open_failure_cases
    (parse : String → Except Error Document)
    (fs : String → Except Error (List Char)) (fuel : Nat)
    (st : SplitFileIter) (e : Error) (hcur : st.current_file = none)
    (hfs : fs (filePathAt st st.counter) = .error e) :
    splitNext parse fs fuel st =
      if e = .io IoKind.notFound ∧ st.counter_start < st.counter then
        some (none, st)
      else
        some (some (.error e), st) := by
  cases fuel with
  | zero => exact splitNextBody_open_error parse fs _ st e hcur hfs
  | succ f => exact splitNextBody_open_error parse fs _ st e hcur hfs

/-- Witness for C4 at a concrete state: a NotFound failure on the very
first attempted index is a fatal error item, not a clean end. -/
theorem splitFileIter_open_failure_cases_witness :
    splitNext (fun _ => .error .serdeJson)
        (fun _ => .error (.io IoKind.notFound)) 5
        (SplitFileIter.new "corpus" "part_" "" ".jsonl" 0) =
      some (some (.error (.io IoKind.notFound)),
        SplitFileIter.new "corpus" "part_" "" ".jsonl" 0) := by
  have h := splitFileIter_open_failure_cases (fun _ => .error .serdeJson)
    (fun _ => .error (.io IoKind.notFound)) 5
    (SplitFileIter.new "corpus" "part_" "" ".jsonl" 0)
    (.io IoKind.notFound) rfl rfl
  rw [h, if_neg]
  intro hcontra
  exact absurd hcontra.2 (by decide)

/-- C5: the claim that the rotate-and-retry continuation is an iterative
loop with bounded stack depth fails on the code: SplitFileIter::next is
recursive (reader.rs lines 167 and 200, with the source's own comment
admitting it), and for every recursion-depth budget there is a run of
budget + 1 consecutive empty shards followed by a missing index on which a
single pull exceeds the budget, while depth 2 * (budget + 1) answers it
with a clean end - so the depth needed grows without bound. -/
theorem splitFileIter_recursion_depth_unbounded
    (parse : String → Except Error Document)
    (fs : String → Except Error (List Char)) (bound : Nat)
    (st : SplitFileIter) (hcur : st.current_file = none)
    (hstart : st.counter = st.counter_start)
    (hfiles : ∀ i, i < bound + 1 →
      fs (filePathAt st (st.counter + i)) = .ok [])
    (hmiss : fs (filePathAt st (st.counter + (bound + 1))) =
      .error (.io IoKind.notFound)) :
    splitNext parse fs bound st = none ∧
      ∃ st₂, splitNext parse fs (2 * (bound + 1)) st = some (none, st₂) := by
  constructor
  · exact splitNext_empties_no_fuel parse fs (bound + 1) st hcur hfiles bound
      (by omega)
  · exact splitNext_empties_ends parse fs (bound + 1) st hcur hfiles hmiss
      (by omega)

/-- Witness for C5 at budget 0 over one empty shard: depth 0 runs out of
fuel, depth 2 ends cleanly. -/
theorem splitFileIter_recursion_depth_unbounded_witness :
    splitNext (fun _ => .error .serdeJson)
        (fun p => if p = "c/shard_0.jsonl" then .ok []
          else .error (.io IoKind.notFound))
        0 (SplitFileIter.new "c" "shard_" "" ".jsonl" 0) = none ∧
      ∃ st₂, splitNext (fun _ => .error .serdeJson)
        (fun p => if p = "c/shard_0.jsonl" then .ok []
          else .error (.io IoKind.notFound))
        (2 * (0 + 1)) (SplitFileIter.new "c" "shard_" "" ".jsonl" 0) =
          some (none, st₂) := by
  exact splitFileIter_recursion_depth_unbounded (fun _ => .error .serdeJson)
    (fun p => if p = "c/shard_0.jsonl" then .ok []
      else .error (.io IoKind.notFound))
    0 (SplitFileIter.new "c" "shard_" "" ".jsonl" 0) rfl rfl
    (fun i hi => by
      have hi0 : i = 0 := by omega
      subst hi0
      rfl)
    rfl

/-- C6: with k >= 1 shards openable at consecutive indices from the start
and the next index missing, SplitFileIter runs to exactly the
concatenation of each shard's DocReader items in shard order (no item in
between) and then ends cleanly; and a per-record error from the open shard
is yielded as an item with the shard kept open at the advanced position. -/
theorem splitFileIter_concatenates_shards
    (parse : String → Except Error Document)
    (fs : String → Except Error (List Char))
    (shards : List (List Char)) (start : Nat) (bp fns fne fnx : String)
    (st₂ : SplitFileIter) (file rest : List Char) (e : Error) (fuel : Nat)
    (hk : 1 ≤ shards.length)
    (hfiles : ∀ i, i < shards.length →
      fs (filePathAt (SplitFileIter.new bp fns fne fnx start) (start + i)) =
        .ok (shards.getD i []))
    (hmiss : fs (filePathAt (SplitFileIter.new bp fns fne fnx start)
        (start + shards.length)) = .error (.io IoKind.notFound))
    (hcur2 : st₂.current_file = some file)
    (herr : docNext parse file = some (.error e, rest)) :
    Runs (splitNextBody parse fs) (SplitFileIter.new bp fns fne fnx start)
        ((shards.map (readAll parse)).flatten) ∧
      splitNext parse fs fuel st₂ =
        some (some (.error e), {st₂ with current_file := some rest}) := by
  constructor
  · refine splitRuns_shards parse fs shards
      (SplitFileIter.new bp fns fne fnx start) rfl hfiles hmiss ?_
    show start < start + shards.length
    omega
  · cases fuel with
    | zero =>
      exact splitNextBody_file_item parse fs _ st₂ file (.error e) rest
        hcur2 herr
    | succ f =>
      exact splitNextBody_file_item parse fs _ st₂ file (.error e) rest
        hcur2 herr

/-- Witness for C6: one shard of one document at index 0, index 1 missing;
and a state holding an open shard whose next line is malformed. -/
theorem splitFileIter_concatenates_shards_witness :
    Runs
      (splitNextBody
        (fun s => if s = "!\n" then .error .serdeJson
          else .ok ⟨s, [], ⟨⟨"en", 1.0⟩, none, []⟩⟩)
        (fun p => if p = "c/p0.l" then .ok ['x', '\n']
          else .error (.io IoKind.notFound)))
      (SplitFileIter.new "c" "p" "" ".l" 0)
      (([['x', '\n']].map (readAll
        (fun s => if s = "!\n" then .error .serdeJson
          else .ok ⟨s, [], ⟨⟨"en", 1.0⟩, none, []⟩⟩))).flatten) ∧
    splitNext
        (fun s => if s = "!\n" then .error .serdeJson
          else .ok ⟨s, [], ⟨⟨"en", 1.0⟩, none, []⟩⟩)
        (fun p => if p = "c/p0.l" then .ok ['x', '\n']
          else .error (.io IoKind.notFound))
        3 ⟨"c", "p", "", ".l", 0, 1, some ['!', '\n']⟩ =
      some (some (.error .serdeJson),
        {(⟨"c", "p", "", ".l", 0, 1, some ['!', '\n']⟩ : SplitFileIter) with
          current_file := some []}) := by
  exact splitFileIter_concatenates_shards
    (fun s => if s = "!\n" then .error .serdeJson
      else .ok ⟨s, [], ⟨⟨"en", 1.0⟩, none, []⟩⟩)
    (fun p => if p = "c/p0.l" then .ok ['x', '\n']
      else .error (.io IoKind.notFound))
    [['x', '\n']] 0 "c" "p" "" ".l"
    ⟨"c", "p", "", ".l", 0, 1, some ['!', '\n']⟩ ['!', '\n'] [] .serdeJson 3
    (by decide)
    (fun i hi => by
      have hi1 : i < 1 := by simpa using hi
      have hi0 : i = 0 := by omega
      subst hi0
      rfl)
    rfl
    rfl
    rfl

/-- C7: when a queued file of SplitFolderFileIter fails to open, that pull
yields exactly one error item, the popped entry is discarded and no file is
open afterwards, so the following pull proceeds with the next queued file;
and over three queued files (popped in order file 1, file 2, file 3) where
the second is unreadable, the run yields file 1's documents, one error
item, then file 3's documents, ending cleanly - file 3's content is never
dropped. -/
theorem splitFolderFileIter_skips_failed_file
    (parse : String → Except Error Document)
    (fs : String → Except Error (List Char))
    (st : SplitFolderFileIter) (p : String) (rest : List String) (e₀ : Error)
    (fuel : Nat) (f1 f2 f3 : String) (c1 c3 : List Char) (e : Error)
    (nb d : Nat)
    (hcur : st.current_file = none)
    (hpop : vecPop st.files = (some p, rest))
    (hfs : fs p = .error e₀)
    (h1 : fs f1 = .ok c1) (h2 : fs f2 = .error e) (h3 : fs f3 = .ok c3) :
    folderNext parse fs fuel st =
        some (some (.error e₀), {st with files := rest}) ∧
      Runs (folderNextBody parse fs) ⟨none, [f3, f2, f1], nb, d⟩
        (readAll parse c1 ++ .error e :: readAll parse c3) := by
  constructor
  · cases fuel with
    | zero => exact folderNextBody_open_error parse fs _ st p rest e₀ hcur hpop hfs
    | succ f => exact folderNextBody_open_error parse fs _ st p rest e₀ hcur hpop hfs
  · have hend : Runs (folderNextBody parse fs)
        (⟨none, [], nb, d + 2⟩ : SplitFolderFileIter) [] :=
      runs_end
        (fun recur => folderNextBody_queue_empty parse fs recur _ [] rfl rfl)
    have h3run : Runs (folderNextBody parse fs)
        (⟨some c3, [], nb, d + 2⟩ : SplitFolderFileIter) (readAll parse c3) := by
      have hc := folderRuns_consume parse fs c3.length c3 rfl
        ⟨some c3, [], nb, d + 2⟩ [] rfl hend
      simpa using hc
    have h3open : Runs (folderNextBody parse fs)
        (⟨none, [f3], nb, d + 1⟩ : SplitFolderFileIter) (readAll parse c3) :=
      runs_defer (folderNextBody_mono parse fs)
        (fun recur => folderNextBody_open_ok parse fs recur _ f3 [] c3 rfl rfl h3)
        h3run
    have herr2 : Runs (folderNextBody parse fs)
        (⟨none, [f3, f2], nb, d + 1⟩ : SplitFolderFileIter)
        (.error e :: readAll parse c3) :=
      runs_cons
        (fun recur =>
          folderNextBody_open_error parse fs recur _ f2 [f3] e rfl rfl h2)
        h3open
    have h1run : Runs (folderNextBody parse fs)
        (⟨some c1, [f3, f2], nb, d + 1⟩ : SplitFolderFileIter)
        (readAll parse c1 ++ .error e :: readAll parse c3) :=
      folderRuns_consume parse fs c1.length c1 rfl
        ⟨some c1, [f3, f2], nb, d + 1⟩ _ rfl herr2
    exact runs_defer (folderNextBody_mono parse fs)
      (fun recur =>
        folderNextBody_open_ok parse fs recur _ f1 [f3, f2] c1 rfl rfl h1)
      h1run

/-- Witness for C7: queue ["b"] whose pop fails to open yields one error
item and discards the entry; three files a, b, cc with b unreadable run to
file a's document, one error, file cc's document. -/
theorem splitFolderFileIter_skips_failed_file_witness :
    folderNext
        (fun s => if s = "!\n" then .error .serdeJson
          else .ok ⟨s, [], ⟨⟨"en", 1.0⟩, none, []⟩⟩)
        (fun q => if q = "a" then .ok ['x', '\n']
          else if q = "b" then .error (.io IoKind.permissionDenied)
          else if q = "cc" then .ok ['y', '\n']
          else .error (.io IoKind.notFound))
        4 ⟨none, ["b"], 1, 0⟩ =
      some (some (.error (.io IoKind.permissionDenied)),
        {(⟨none, ["b"], 1, 0⟩ : SplitFolderFileIter) with files := []}) ∧
    Runs
      (folderNextBody
        (fun s => if s = "!\n" then .error .serdeJson
          else .ok ⟨s, [], ⟨⟨"en", 1.0⟩, none, []⟩⟩)
        (fun q => if q = "a" then .ok ['x', '\n']
          else if q = "b" then .error (.io IoKind.permissionDenied)
          else if q = "cc" then .ok ['y', '\n']
          else .error (.io IoKind.notFound)))
      ⟨none, ["cc", "b", "a"], 3, 0⟩
      (readAll (fun s => if s = "!\n" then .error .serdeJson
          else .ok ⟨s, [], ⟨⟨"en", 1.0⟩, none, []⟩⟩) ['x', '\n'] ++
        .error (.io IoKind.permissionDenied) ::
          readAll (fun s => if s = "!\n" then .error .serdeJson
            else .ok ⟨s, [], ⟨⟨"en", 1.0⟩, none, []⟩⟩) ['y', '\n']) := by
  exact splitFolderFileIter_skips_failed_file
    (fun s => if s = "!\n" then .error .serdeJson
      else .ok ⟨s, [], ⟨⟨"en", 1.0⟩, none, []⟩⟩)
    (fun q => if q = "a" then .ok ['x', '\n']
      else if q = "b" then .error (.io IoKind.permissionDenied)
      else if q = "cc" then .ok ['y', '\n']
      else .error (.io IoKind.notFound))
    ⟨none, ["b"], 1, 0⟩ "b" [] (.io IoKind.permissionDenied) 4
    "a" "b" "cc" ['x', '\n'] ['y', '\n'] (.io IoKind.permissionDenied) 3 0
    rfl rfl rfl rfl rfl rfl

/-- C8: a zero-byte read is a clean end of stream, not an error; a line
that fails to parse is yielded as an error for that pull only while the
input position advances to the following line; hence over a five-line
input whose third line is malformed the reader yields exactly ok, ok,
error, ok, ok - five items, in order. -/
theorem docReader_five_lines_one_malformed
    (parse : String → Except Error Document)
    (r0 r1 r2 r3 r4 r5 l1 l2 l3 l4 l5 : List Char)
    (d1 d2 d4 d5 : Document) (e : Error)
    (hn1 : r0 ≠ []) (hs1 : splitLine r0 = (l1, r1))
    (hn2 : r1 ≠ []) (hs2 : splitLine r1 = (l2, r2))
    (hn3 : r2 ≠ []) (hs3 : splitLine r2 = (l3, r3))
    (hn4 : r3 ≠ []) (hs4 : splitLine r3 = (l4, r4))
    (hn5 : r4 ≠ []) (hs5 : splitLine r4 = (l5, r5))
    (hend : r5 = [])
    (hp1 : parse (String.mk l1) = .ok d1)
    (hp2 : parse (String.mk l2) = .ok d2)
    (hp3 : parse (String.mk l3) = .error e)
    (hp4 : parse (String.mk l4) = .ok d4)
    (hp5 : parse (String.mk l5) = .ok d5) :
    docNext parse [] = none ∧
      docNext parse r2 = some (.error e, r3) ∧
      readAll parse r0 = [.ok d1, .ok d2, .error e, .ok d4, .ok d5] := by
  refine ⟨rfl, ?_, ?_⟩
  · rw [docNext_ne parse r2 hn3, hs3]
    dsimp only
    rw [hp3]
  · rw [readAll_cons parse r0 hn1, hs1]
    dsimp only
    rw [hp1, readAll_cons parse r1 hn2, hs2]
    dsimp only
    rw [hp2, readAll_cons parse r2 hn3, hs3]
    dsimp only
    rw [hp3, readAll_cons parse r3 hn4, hs4]
    dsimp only
    rw [hp4, readAll_cons parse r4 hn5, hs5]
    dsimp only
    rw [hp5, hend, readAll_nil]

/-- Witness for C8 over the concrete five-line input a, b, !, d, e with !
the malformed line. -/
theorem docReader_five_lines_one_malformed_witness :
    docNext (fun s => if s = "!\n" then .error .serdeJson
        else .ok ⟨s, [], ⟨⟨"en", 1.0⟩, none, []⟩⟩) [] = none ∧
      docNext (fun s => if s = "!\n" then .error .serdeJson
          else .ok ⟨s, [], ⟨⟨"en", 1.0⟩, none, []⟩⟩)
        ['!', '\n', 'd', '\n', 'e'] =
        some (.error .serdeJson, ['d', '\n', 'e']) ∧
      readAll (fun s => if s = "!\n" then .error .serdeJson
          else .ok ⟨s, [], ⟨⟨"en", 1.0⟩, none, []⟩⟩)
        ['a', '\n', 'b', '\n', '!', '\n', 'd', '\n', 'e'] =
        [.ok ⟨"a\n", [], ⟨⟨"en", 1.0⟩, none, []⟩⟩,
          .ok ⟨"b\n", [], ⟨⟨"en", 1.0⟩, none, []⟩⟩,
          .error .serdeJson,
          .ok ⟨"d\n", [], ⟨⟨"en", 1.0⟩, none, []⟩⟩,
          .ok ⟨"e", [], ⟨⟨"en", 1.0⟩, none, []⟩⟩] := by
  exact docReader_five_lines_one_malformed
    (fun s => if s = "!\n" then .error .serdeJson
      else .ok ⟨s, [], ⟨⟨"en", 1.0⟩, none, []⟩⟩)
    ['a', '\n', 'b', '\n', '!', '\n', 'd', '\n', 'e']
    ['b', '\n', '!', '\n', 'd', '\n', 'e']
    ['!', '\n', 'd', '\n', 'e']
    ['d', '\n', 'e']
    ['e']
    []
    ['a', '\n'] ['b', '\n'] ['!', '\n'] ['d', '\n'] ['e']
    ⟨"a\n", [], ⟨⟨"en", 1.0⟩, none, []⟩⟩
    ⟨"b\n", [], ⟨⟨"en", 1.0⟩, none, []⟩⟩
    ⟨"d\n", [], ⟨⟨"en", 1.0⟩, none, []⟩⟩
    ⟨"e", [], ⟨⟨"en", 1.0⟩, none, []⟩⟩
    .serdeJson
    (by decide) rfl (by decide) rfl (by decide) rfl
    (by decide) rfl (by decide) rfl rfl
    rfl rfl rfl rfl rfl

/-- C9: DocReader::from_gzip is the plain reader behind the multi-member
gzip decoder, so whenever the decoder inverts the compressor on a byte
sequence, reading the compressed form through the gzip variant yields a
document sequence identical to reading the uncompressed bytes through the
plain reader. -/
theorem docReader_gzip_equiv (parse : String → Except Error Document)
    (decode encode : List Char → List Char) (bs : List Char)
    (hinv : decode (encode bs) = bs) :
    readAll parse (fromGzip decode (encode bs)) = readAll parse bs := by
  unfold fromGzip
  rw [hinv]

/-- Witness for C9 with the identity coder pair on a concrete stream. -/
theorem docReader_gzip_equiv_witness :
    readAll (fun s => if s = "!\n" then .error .serdeJson
        else .ok ⟨s, [], ⟨⟨"en", 1.0⟩, none, []⟩⟩)
      (fromGzip (fun x => x) ((fun x => x) ['a', '\n', 'e'])) =
      readAll (fun s => if s = "!\n" then .error .serdeJson
        else .ok ⟨s, [], ⟨⟨"en", 1.0⟩, none, []⟩⟩) ['a', '\n', 'e'] := by
  exact docReader_gzip_equiv
    (fun s => if s = "!\n" then .error .serdeJson
      else .ok ⟨s, [], ⟨⟨"en", 1.0⟩, none, []⟩⟩)
    (fun x => x) (fun x => x) ['a', '\n', 'e'] rfl

/-- C10: construction on a plain-file location queues exactly that file; on
a directory location it keeps exactly the plain-file entries of a single
immediate read_dir listing, fails with the empty-input Custom error when
none remain, and otherwise queues the kept entries so that Vec::pop
consumes them in lexicographically sorted full-path order - a sorted
permutation of the kept entries - with nb_files their count, making the
yielded document order deterministic. -/
theorem splitFolderFileIter_new_spec (is_file : String → Bool)
    (readDir : String → Except Error (List String)) (folder : String)
    (entries : List String)
    (hdir : readDir folder = .ok entries) :
    (is_file folder = true →
      SplitFolderFileIter.new is_file readDir folder =
        .ok ⟨none, [folder], 1, 0⟩) ∧
    (is_file folder = false →
      entries.filter (fun q => is_file q) = [] →
      SplitFolderFileIter.new is_file readDir folder =
        .error (.custom ("No files found in " ++ folder))) ∧
    (is_file folder = false →
      entries.filter (fun q => is_file q) ≠ [] →
      SplitFolderFileIter.new is_file readDir folder =
        .ok ⟨none, (sortPaths (entries.filter (fun q => is_file q))).reverse,
          (sortPaths (entries.filter (fun q => is_file q))).reverse.length,
          0⟩ ∧
      vecPopAll (sortPaths (entries.filter (fun q => is_file q))).reverse =
        sortPaths (entries.filter (fun q => is_file q)) ∧
      List.Sorted (fun a b : String => a ≤ b)
        (sortPaths (entries.filter (fun q => is_file q))) ∧
      (sortPaths (entries.filter (fun q => is_file q))).Perm
        (entries.filter (fun q => is_file q))) := by
  refine ⟨?_, ?_, ?_⟩
  · intro hfile
    simp [SplitFolderFileIter.new, hfile]
  · intro hfile hempty
    simp [SplitFolderFileIter.new, hfile, hdir, hempty]
  · intro hfile hne
    refine ⟨?_, ?_, ?_, ?_⟩
    · simp [SplitFolderFileIter.new, hfile, hdir, hne]
    · rw [vecPopAll_reverse, List.reverse_reverse]
    · exact sortPaths_sorted _
    · exact sortPaths_perm _

/-- Witness for C10 on a plain-file location. -/
theorem splitFolderFileIter_new_spec_witness :
    SplitFolderFileIter.new (fun _ => true) (fun _ => .ok []) "f.jsonl" =
      .ok ⟨none, ["f.jsonl"], 1, 0⟩ := by
  have h := splitFolderFileIter_new_spec (fun _ => true) (fun _ => .ok [])
    "f.jsonl" [] rfl
  exact h.1 rfl
